import Mathlib

/-!
Shallow embedding of the subprocess-execution and streaming-redaction core of
the `ci-actions` repository, together with proofs about its behaviour.

The embedding follows the Rust source:
* `processor` crate: `MaskerEqual`, `MaskerRegex`, `MaskerItem`,
  `MaskerCollection` (`src/actions/pkgs/core/processor/src/...`);
* `executer` crate: `Context`, `CmdRule`, `Validator`, `Subprocess`
  (`src/actions/pkgs/core/executer/src/...`,
   `src/actions/pkg/core/executer/src/subprocess.rs`);
* `terraform` crate: `TerraformCommand`, `WorkspaceOperation`,
  `TerraformExecutor::execute_chain`
  (`src/actions/pkg/terraform/src/command.rs`, `executor.rs`).

Rust strings are modelled as Lean `String`, `HashMap<String, String>` as an
association list whose key list is `Nodup` (the representation invariant of a
hash map), `i32`/`u64` as `Int`/`Nat`, and `Result<T, E>` as `Except E T`.
Recursions that walk a string are written with an explicit fuel argument equal
to the length of the character list, which bounds every step of the Rust loop,
so that all definitions are structural and evaluate by kernel reduction.
-/

namespace CiActions

/-! ## Redaction pipeline (`processor` crate)

`MaskerEqual::process` (maskers/equal.rs) replaces, for each configured
substring in order, every occurrence of that substring by the mask, using
Rust `String::replace` semantics (left-to-right, non-overlapping).
-/

/-- One scan of Rust `str::replace` for an empty pattern: the replacement is
inserted before every character and at the end, matching
`"abc".replace("", "X") == "XaXbXcX"`. -/
def replaceEmptyPat (rep : List Char) : List Char → List Char
  | [] => rep
  | c :: rest => rep ++ c :: replaceEmptyPat rep rest

/-- Rust `str::replace` for a non-empty pattern, on character lists: scan left
to right, replace each non-overlapping occurrence of `pat` by `rep`.  The
fuel argument bounds the number of loop steps; each step consumes at least
one character, so fuel `l.length` is always enough. -/
def replaceFuel (pat rep : List Char) : Nat → List Char → List Char
  | 0, l => l
  | _ + 1, [] => []
  | fuel + 1, c :: rest =>
    if pat.isPrefixOf (c :: rest) then
      rep ++ replaceFuel pat rep fuel (rest.drop (pat.length - 1))
    else
      c :: replaceFuel pat rep fuel rest

/-- Rust `String::replace self pattern replacement`: replace every
non-overlapping occurrence of `pattern` in `self` by `replacement`. -/
def rustReplace (s pat rep : String) : String :=
  if pat.data.isEmpty then ⟨replaceEmptyPat rep.data s.data⟩
  else ⟨replaceFuel pat.data rep.data s.data.length s.data⟩

/-- Rust `MaskerEqual` (maskers/equal.rs): a list of literal substrings and a
replacement mask. -/
structure MaskerEqual where
  substring : List String
  mask : String

/-- Rust `MaskerEqual::process`: fold the input through `output.replace(substring,
mask)` for each configured substring, in list order. -/
def MaskerEqual.process (m : MaskerEqual) (input : String) : String :=
  m.substring.foldl (fun output sub => rustReplace output sub m.mask) input

/-- Predicate `matchesDigits n cs` holds when the first `n` characters of `cs` exist and
are all decimal digits: the anchored match of the regex `\d` repeated exactly
`n` times. -/
def matchesDigits : Nat → List Char → Bool
  | 0, _ => true
  | _ + 1, [] => false
  | k + 1, c :: rest => c.isDigit && matchesDigits k rest

/-- Rust `Regex::replace_all` for the pattern `\d` repeated exactly `k + 1` times:
leftmost, non-overlapping matches are each replaced by `mask`.  Fuel as in
`replaceFuel`. -/
def replaceDigitsFuel (k : Nat) (mask : List Char) : Nat → List Char → List Char
  | 0, l => l
  | _ + 1, [] => []
  | fuel + 1, c :: rest =>
    if matchesDigits (k + 1) (c :: rest) then
      mask ++ replaceDigitsFuel k mask fuel (rest.drop k)
    else
      c :: replaceDigitsFuel k mask fuel rest

/-- The regex patterns appearing in the claims about the redaction pipeline.
Modelled from the `regex` crate semantics for this pattern class:
`digitsExactly n` is the pattern matching exactly `n` decimal digits
(written in regex syntax as a backslash, a `d`, and `n` in braces). -/
inductive RegexPat where
  | digitsExactly (n : Nat)

/-- Rust `Regex::replace_all pattern input mask`: replace every leftmost,
non-overlapping match of the pattern in the input by the mask.  A
zero-repetition digit pattern matches nothing here (the claims only use
positive repetition counts). -/
def RegexPat.replaceAll : RegexPat → String → String → String
  | .digitsExactly 0, _, s => s
  | .digitsExactly (k + 1), mask, s =>
    ⟨replaceDigitsFuel k mask.data s.data.length s.data⟩

/-- Rust `MaskerRegex` (maskers/regex.rs): a list of compiled patterns and a
replacement mask. -/
structure MaskerRegex where
  patterns : List RegexPat
  mask : String

/-- Rust `MaskerRegex::process`: fold the input through
`pattern.replace_all(output, mask)` for each pattern, in list order. -/
def MaskerRegex.process (m : MaskerRegex) (input : String) : String :=
  m.patterns.foldl (fun output p => p.replaceAll m.mask output) input

/-- Rust `MaskerItem` (item.rs): the closed sum of processor kinds. -/
inductive MaskerItem where
  | regex (m : MaskerRegex)
  | equal (m : MaskerEqual)

/-- Rust `MaskerItem::process` (item.rs): dispatch on the variant. -/
def MaskerItem.process : MaskerItem → String → String
  | .regex m, input => m.process input
  | .equal m, input => m.process input

/-- Rust `MaskerCollection` (collection.rs): the ordered list of processors. -/
structure MaskerCollection where
  processors : List MaskerItem

/-- Rust `MaskerCollection::new`. -/
def MaskerCollection.new (processors : List MaskerItem) : MaskerCollection :=
  ⟨processors⟩

/-- Rust `MaskerCollection::process` (collection.rs): fold the input through each
processor in sequence. -/
def MaskerCollection.process (c : MaskerCollection) (input : String) : String :=
  c.processors.foldl (fun acc processor => processor.process acc) input

/-! ## Execution requests and validation (`executer` crate) -/

/-- Rust `ExecuterError` (error.rs).  The payload of `IoError` is kept as the
rendered message. -/
inductive ExecuterError where
  | validationError (msg : String)
  | executionError (msg : String)
  | streamError (msg : String)
  | ioError (msg : String)
  | environmentError (msg : String)
deriving DecidableEq

/-- Rust `Context` (context.rs): command tokens, environment overrides, optional
working directory, optional timeout in seconds.  The environment map is an
association list with `Nodup` keys. -/
structure Context where
  command : List String
  env : List (String × String)
  cwd : Option String
  timeout : Option Nat
deriving DecidableEq

/-- Rust `Context::new` (context.rs): timeout starts out unset. -/
def Context.new (command : List String) (env : List (String × String))
    (cwd : Option String) : Context :=
  ⟨command, env, cwd, none⟩

/-- Rust `Context::with_timeout` (context.rs). -/
def Context.with_timeout (ctx : Context) (timeout : Nat) : Context :=
  { ctx with timeout := some timeout }

/-- Rust `CmdRule` (validate/rules/cmd.rs): the configurable forbidden character
set. -/
structure CmdRule where
  forbidden_chars : List Char

/-- Rust `CmdRule::new` (cmd.rs): ampersand, pipe, semicolon, backquote
(character 0x60), backslash. -/
def CmdRule.new : CmdRule :=
  ⟨['&', '|', ';', Char.ofNat 96, '\\']⟩

/-- The `for (i, arg) in context.command.iter().enumerate()` loop of
`CmdRule::validate`: `prev` is the token before the current one (`none` at
index 0); a token whose predecessor is `"-c"` is skipped, any other token
containing a forbidden character aborts with a validation error. -/
def cmdCheckLoop (forbidden : List Char) : Option String → List String →
    Except ExecuterError Unit
  | _, [] => .ok ()
  | prev, arg :: rest =>
    if prev = some "-c" then cmdCheckLoop forbidden (some arg) rest
    else if arg.data.any (fun c => forbidden.contains c) then
      .error (.validationError
        ("Invalid command argument " ++ arg ++ ": contains forbidden characters"))
    else cmdCheckLoop forbidden (some arg) rest

/-- Rust `CmdRule::validate` (cmd.rs): an empty token list is rejected outright;
otherwise run the forbidden-character loop. -/
def CmdRule.validate (r : CmdRule) (ctx : Context) : Except ExecuterError Unit :=
  if ctx.command.isEmpty then
    .error (.validationError "Empty command sequence")
  else cmdCheckLoop r.forbidden_chars none ctx.command

/-- A validation rule as seen by the `Validator` (validate/traits.rs): the
trait object is modelled by its name, priority and validation function. -/
structure VRule where
  name : String
  priority : Int
  validate : Context → Except ExecuterError Unit

/-- The boxed `CmdRule::new()` trait object: name `"cmd"`, priority 0. -/
def cmdVRule : VRule :=
  ⟨"cmd", 0, CmdRule.new.validate⟩

/-- Rust `Validator` (validate/validator.rs). -/
structure Validator where
  rules : List VRule

/-- Rust `Validator::new` (validator.rs): `rules.sort_by_key(|rule| rule.priority())`
is a stable ascending sort by priority; insertion sort with the non-strict
comparison is stable, so it computes the same list. -/
def Validator.new (rules : List VRule) : Validator :=
  ⟨rules.insertionSort (fun a b => a.priority ≤ b.priority)⟩

/-- The `for rule in self.rules.iter()` loop of `Validator::validate`:
propagate the first failure, succeed when every rule succeeds. -/
def validateRules : List VRule → Context → Except ExecuterError Unit
  | [], _ => .ok ()
  | r :: rest, ctx =>
    match r.validate ctx with
    | .error e => .error e
    | .ok _ => validateRules rest ctx

/-- Rust `Validator::validate` (validator.rs). -/
def Validator.validate (v : Validator) (ctx : Context) :
    Except ExecuterError Unit :=
  validateRules v.rules ctx

/-! ## Subprocess runner (`subprocess.rs`)

`Subprocess::execute` is asynchronous and effectful; it is embedded as a
function from the observable behaviour of the environment (did the spawn
succeed, did the child terminate before the timeout, and with what status)
to the ordered list of events the method body performs.  The control flow of
the trace follows the body of
`src/actions/pkg/core/executer/src/subprocess.rs` line by line.
-/

/-- The termination status reported by the OS (`std::process::ExitStatus`):
either a numeric exit code or termination without one (e.g. by signal). -/
inductive ProcessStatus where
  | exited (code : Int)
  | signaled
deriving DecidableEq

/-- Rust `ExitStatus::code()`. -/
def ProcessStatus.code : ProcessStatus → Option Int
  | .exited c => some c
  | .signaled => none

/-- How the wait on the child resolves: the child terminates with a status,
or it is still running when the configured timeout expires. -/
inductive WaitBehavior where
  | completes (status : ProcessStatus)
  | hangsPastTimeout
deriving DecidableEq

/-- The environment behaviour an `execute` call can observe. -/
structure ExecBehavior where
  spawnOk : Bool
  wait : WaitBehavior
deriving DecidableEq

/-- The result value of `Subprocess::execute`: `Result<i32, ExecuterError>`. -/
inductive ExecReturn where
  | ok (code : Int)
  | err (e : ExecuterError)
deriving DecidableEq

/-- The observable events of one `Subprocess::execute` call, in program
order. -/
inductive ExecEvent where
  /-- The validator accepted the context. -/
  | validated
  /-- Rust `Command::new(&context.command[0])` indexed an empty token list:
  an out-of-bounds panic, not a returned error. -/
  | panicked
  /-- Rust `command.spawn()` succeeded. -/
  | spawnedChild
  /-- Both stream-drain tasks were spawned. -/
  | spawnedDrainTasks
  /-- Rust `child.kill()` on timeout expiry. -/
  | killedChild
  /-- Rust `stdout_handle.await` completed. -/
  | joinedStdoutDrain
  /-- Rust `stderr_handle.await` completed. -/
  | joinedStderrDrain
  /-- Rust `child.wait()` with no timeout configured never resolves. -/
  | waitsForever
  /-- The call returned this result to the caller. -/
  | returned (r : ExecReturn)
deriving DecidableEq

/-- Rust `Subprocess` (subprocess.rs); the two output handles do not influence the
properties proved here and are omitted. -/
structure Subprocess where
  validator : Validator

/-- Rust `Subprocess::new`. -/
def Subprocess.new (validator : Validator) : Subprocess :=
  ⟨validator⟩

/-- The event trace of `Subprocess::execute` (subprocess.rs, lines 108-171):

1. `self.validator.validate(&context)?` — a failure returns immediately;
2. `Command::new(&context.command[0])` — panics when the token list is empty;
3. `command.spawn()?` — a failure returns an `ExecutionError`;
4. spawn the two drain tasks;
5. wait for the child: with a timeout set, expiry kills the child and
   returns a timeout error *without* awaiting the drain handles; otherwise
   the status is taken from the completed wait;
6. `stdout_handle.await` then `stderr_handle.await`;
7. `Ok(status.code().unwrap_or(2))`. -/
def Subprocess.executeTrace (s : Subprocess) (ctx : Context)
    (beh : ExecBehavior) : List ExecEvent :=
  match s.validator.validate ctx with
  | .error e => [.returned (.err e)]
  | .ok _ =>
    if ctx.command.isEmpty then [.validated, .panicked]
    else if ¬ beh.spawnOk then
      [.validated, .returned (.err (.ioError "spawn failed"))]
    else
      .validated :: .spawnedChild :: .spawnedDrainTasks ::
        match ctx.timeout, beh.wait with
        | some t, .hangsPastTimeout =>
          [.killedChild,
           .returned (.err (.executionError
             ("Command timed out after " ++ toString t ++ " seconds")))]
        | some _, .completes st =>
          [.joinedStdoutDrain, .joinedStderrDrain,
           .returned (.ok (st.code.getD 2))]
        | none, .hangsPastTimeout => [.waitsForever]
        | none, .completes st =>
          [.joinedStdoutDrain, .joinedStderrDrain,
           .returned (.ok (st.code.getD 2))]

/-- The result handed back to the caller, when the call returns at all. -/
def traceReturn (tr : List ExecEvent) : Option ExecReturn :=
  tr.findSome? fun e =>
    match e with
    | .returned r => some r
    | _ => none

/-! ## Terraform commands and the command chain (`terraform` crate) -/

/-- Rust `WorkspaceOperation` (command.rs). -/
inductive WorkspaceOperation where
  | list
  | new (name : String)
  | select (name : String)
  | delete (name : String)
deriving DecidableEq

/-- Rust `TerraformCommand` (command.rs).  `PathBuf` is modelled as `String`; the
two `HashMap<String, String>` fields are association lists with `Nodup`
keys. -/
inductive TerraformCommand where
  | init (dir : String) (backend_config : Option (List (String × String)))
  | plan (dir : String) (vars : List (String × String)) (out : Option String)
  | apply (dir : String) (plan_file : Option String) (auto_approve : Bool)
  | workspace (dir : String) (operation : WorkspaceOperation)
deriving DecidableEq

/-- Rust `HashMap::get` on the association-list model: the value of the first
entry with the given key (with `Nodup` keys, of the only such entry). -/
def lookupFirst : List (String × String) → String → Option String
  | [], _ => none
  | p :: rest, k => if p.1 == k then some p.2 else lookupFirst rest k

/-- Lexicographic comparison of character lists by scalar value, the order
Rust's `str` comparison induces (UTF-8 byte order coincides with scalar-value
order). -/
def strListLe : List Char → List Char → Bool
  | [], _ => true
  | _ :: _, [] => false
  | a :: as, b :: bs =>
    if a.toNat < b.toNat then true
    else if b.toNat < a.toNat then false
    else strListLe as bs

/-- Rust string comparison `a <= b`. -/
def strLe (a b : String) : Bool :=
  strListLe a.data b.data

/-- Rust `keys.sort()` on a `Vec<String>`: ascending lexicographic sort
(insertion sort is stable, like Rust's sort, though on the key list of a
hash map stability is irrelevant because keys are distinct). -/
def sortStrings (keys : List String) : List String :=
  keys.insertionSort (fun a b => strLe a b = true)

/-- Rust `let mut keys: Vec<_> = m.keys().collect(); keys.sort();` — the keys of
the map in ascending order. -/
def sortedKeys (m : List (String × String)) : List String :=
  sortStrings (m.map Prod.fst)

/-- Rust `for key in keys { if let Some(value) = m.get(key) { args.push(render) } }`:
render one argument per sorted key whose lookup succeeds. -/
def renderSortedEntries (m : List (String × String))
    (render : String → String → String) : List String :=
  (sortedKeys m).filterMap fun key =>
    (lookupFirst m key).map fun value => render key value

/-- Rust `TerraformCommand::to_args` (command.rs, lines 97-167). -/
def TerraformCommand.to_args : TerraformCommand → List String
  | .init _ backend_config =>
    let args := ["init", "-reconfigure"]
    match backend_config with
    | none => args
    | some config =>
      args ++ renderSortedEntries config
        (fun key value => "-backend-config=" ++ key ++ "=" ++ value)
  | .plan _ vars out =>
    let args := "plan" ::
      renderSortedEntries vars (fun key value => "-var=" ++ key ++ "=" ++ value)
    match out with
    | none => args
    | some out_file => args ++ ["-out", out_file]
  | .apply _ plan_file auto_approve =>
    let args := ["apply"] ++ (if auto_approve then ["-auto-approve"] else [])
    match plan_file with
    | none => args
    | some file => args ++ [file]
  | .workspace _ operation =>
    "workspace" ::
      match operation with
      | .list => ["list"]
      | .new name => ["new", name]
      | .select name => ["select", name]
      | .delete name => ["delete", name]

/-- Rust `TerraformError` (error.rs). -/
inductive TerraformError where
  | commandError (msg : String)
  | workspaceError (msg : String)
  | initError (msg : String)
  | planError (msg : String)
  | applyError (msg : String)
  | executerError (e : ExecuterError)
deriving DecidableEq

/-- Does the `if let TerraformCommand::Workspace { operation:
WorkspaceOperation::New(_), .. } = cmd` pattern of `execute_chain` match? -/
def TerraformCommand.isWorkspaceNew : TerraformCommand → Bool
  | .workspace _ (.new _) => true
  | _ => false

/-- The `for cmd in &commands` loop of `TerraformExecutor::execute_chain`
(executor.rs, lines 312-336), carrying `last_result`.  `exec` is the pure
model of one `self.execute(cmd.clone()).await`. -/
def executeChainGo (exec : TerraformCommand → Except TerraformError Int) :
    Int → List TerraformCommand → Except TerraformError Int
  | last, [] => .ok last
  | last, cmd :: rest =>
    match exec cmd with
    | .ok code =>
      if cmd.isWorkspaceNew && code ≠ 0 then executeChainGo exec last rest
      else if code ≠ 0 then .ok code
      else executeChainGo exec code rest
    | .error e => .error e

/-- Rust `TerraformExecutor::execute_chain`: `last_result` starts at 0. -/
def execute_chain (exec : TerraformCommand → Except TerraformError Int)
    (commands : List TerraformCommand) : Except TerraformError Int :=
  executeChainGo exec 0 commands

/-! ## Auxiliary definitions used by the theorems and witnesses -/

/-- Exemption test of the `CmdRule::validate` loop, phrased for an explicit
predecessor token: token `i` of `args` is exempt when its predecessor (the
token before index `i`, which is `prev` for `i = 0`) equals `"-c"`. -/
def exemptAt (prev : Option String) (args : List String) (i : Nat) : Prop :=
  if i = 0 then prev = some "-c" else args.getD (i - 1) "" = "-c"

/-- Failure condition of the command-shape rule as the specification states
it: the token list is empty, or some token that is not immediately preceded
by a `"-c"` token contains a forbidden character. -/
def cmdShapeFails (forbidden : List Char) (cmd : List String) : Prop :=
  cmd = [] ∨ ∃ i, i < cmd.length ∧
    ¬ (0 < i ∧ cmd.getD (i - 1) "" = "-c") ∧
    ∃ c, c ∈ forbidden ∧ c ∈ (cmd.getD i "").data

instance : IsTotal VRule (fun a b => a.priority ≤ b.priority) :=
  ⟨fun a b => Int.le_total a.priority b.priority⟩

instance : IsTrans VRule (fun a b => a.priority ≤ b.priority) :=
  ⟨fun _ _ _ h₁ h₂ => le_trans h₁ h₂⟩

/-- A rule that accepts every context, at priority 0. -/
def ruleOkP0 : VRule :=
  ⟨"ok0", 0, fun _ => .ok ()⟩

/-- A rule that rejects every context, at priority 1. -/
def ruleErrP1 : VRule :=
  ⟨"err1", 1, fun _ => .error (.validationError "boom")⟩

/-- A command "passes" the chain loop: its execution returns `Ok` and either
the code is zero or the command is a create-workspace step (whose non-zero
exit is non-fatal). -/
def chainPasses (exec : TerraformCommand → Except TerraformError Int)
    (p : TerraformCommand) : Prop :=
  ∃ k, exec p = .ok k ∧ (k = 0 ∨ p.isWorkspaceNew = true)

/-- An initialisation command used by the chain witness. -/
def tfInitSample : TerraformCommand := .init "d" none

/-- A create-workspace command used by the chain witness. -/
def tfWsNewSample : TerraformCommand := .workspace "d" (.new "ws")

/-- A plan command used by the chain witness. -/
def tfPlanSample : TerraformCommand := .plan "d" [] none

/-- An apply command used by the chain witness; executing it errors, so a
chain result of `Ok` proves it was never reached. -/
def tfApplySample : TerraformCommand := .apply "d" none false

/-- An execution model for the chain witness: init exits 0, creating the
workspace exits 1 (it already exists), plan exits 3, anything else errors. -/
def execSample : TerraformCommand → Except TerraformError Int
  | .init _ _ => .ok 0
  | .workspace _ (.new _) => .ok 1
  | .plan _ _ _ => .ok 3
  | _ => .error (.commandError "should not run")

/-! ## Theorems for the redaction pipeline claims -/

/-- C1: processing a line through a `MaskerCollection` is the left fold of the
line through the rules' process functions in list order (the output of rule n
is the input to rule n + 1), and the pipeline consisting of a regex rule
masking four consecutive digits with `"****"` followed by an equal rule
masking `"password"` with `"***"` maps `"password is 1234"` to
`"*** is ****"`. -/
theorem collection_process_is_fold :
    (∀ (rules : List MaskerItem) (input : String),
      (MaskerCollection.new rules).process input
        = rules.foldl (fun acc r => r.process acc) input) ∧
    (∀ (r : MaskerItem) (rest : List MaskerItem) (input : String),
      (MaskerCollection.new (r :: rest)).process input
        = (MaskerCollection.new rest).process (r.process input)) ∧
    (MaskerCollection.new
      [.regex ⟨[.digitsExactly 4], "****"⟩,
       .equal ⟨["password"], "***"⟩]).process "password is 1234"
      = "*** is ****" :=
  ⟨fun _ _ => rfl, fun _ _ _ => rfl, by decide⟩

/-- C8: a `MaskerCollection` is deterministic — any two runs of the same
pipeline on the same input line produce the same output string. -/
theorem collection_process_deterministic (p : MaskerCollection) (s r₁ r₂ : String)
    (h₁ : r₁ = p.process s) (h₂ : r₂ = p.process s) : r₁ = r₂ :=
  h₁.trans h₂.symm

/-- C8 witness: two runs of a concrete pipeline on `"password is 1234"`
agree. -/
theorem collection_process_deterministic_witness :
    ("*** is ****" : String) = "*** is ****" :=
  collection_process_deterministic
    (MaskerCollection.new
      [.regex ⟨[.digitsExactly 4], "****"⟩, .equal ⟨["password"], "***"⟩])
    "password is 1234" "*** is ****" "*** is ****" (by decide) (by decide)

/-- C10: the empty processor list is the identity of the redaction fold — a
`MaskerCollection` with no processors returns every input unchanged, and a
`MaskerEqual` with an empty substring list returns every input unchanged. -/
theorem empty_rules_are_identity :
    (∀ s : String, (MaskerCollection.new []).process s = s) ∧
    (∀ (mask : String) (s : String), (MaskerEqual.mk [] mask).process s = s) :=
  ⟨fun _ => rfl, fun _ _ => rfl⟩

/-! ## Theorems for the command-shape rule (C4) -/



lemma forall_lt_succ_iff (n : Nat) (R : Nat → Prop) :
    (∀ i, i < n + 1 → R i) ↔ R 0 ∧ ∀ j, j < n → R (j + 1) := by
  constructor
  · intro h
    exact ⟨h 0 (Nat.succ_pos n), fun j hj => h (j + 1) (Nat.succ_lt_succ hj)⟩
  · rintro ⟨h0, hs⟩ i hi
    match i with
    | 0 => exact h0
    | j + 1 => exact hs j (Nat.lt_of_succ_lt_succ hi)

lemma exemptAt_cons (a : String) (rest : List String) (p : Option String)
    (j : Nat) : exemptAt p (a :: rest) (j + 1) ↔ exemptAt (some a) rest j := by
  cases j with
  | zero => simp [exemptAt]
  | succ k => simp [exemptAt]

lemma exemptAt_none_iff (cmd : List String) (i : Nat) :
    exemptAt none cmd i ↔ (0 < i ∧ cmd.getD (i - 1) "" = "-c") := by
  cases i with
  | zero => simp [exemptAt]
  | succ k => simp [exemptAt]

lemma cmdCheckLoop_ok_iff (fb : List Char) (args : List String) :
    ∀ prev : Option String,
      cmdCheckLoop fb prev args = .ok () ↔
        ∀ i, i < args.length → ¬ exemptAt prev args i →
          ∀ c ∈ fb, c ∉ (args.getD i "").data := by
  induction args with
  | nil => intro prev; simp [cmdCheckLoop]
  | cons a rest ih =>
    intro prev
    rw [List.length_cons, forall_lt_succ_iff]
    have hshift :
        (∀ j, j < rest.length → (¬ exemptAt prev (a :: rest) (j + 1) →
            ∀ c ∈ fb, c ∉ ((a :: rest).getD (j + 1) "").data)) ↔
          (∀ j, j < rest.length → ¬ exemptAt (some a) rest j →
            ∀ c ∈ fb, c ∉ (rest.getD j "").data) := by
      apply forall_congr'
      intro j
      apply imp_congr_right
      intro _
      rw [exemptAt_cons, List.getD_cons_succ]
    by_cases hp : prev = some "-c"
    · rw [cmdCheckLoop, if_pos hp, ih (some a), ← hshift]
      have h0 : exemptAt prev (a :: rest) 0 := by simp [exemptAt, hp]
      constructor
      · intro h
        exact ⟨fun hex => absurd h0 hex, h⟩
      · exact fun h => h.2
    · rw [cmdCheckLoop, if_neg hp]
      have h0 : ¬ exemptAt prev (a :: rest) 0 := by simp [exemptAt, hp]
      by_cases hd : a.data.any (fun c => fb.contains c)
      · rw [if_pos hd]
        simp only [List.any_eq_true, List.contains, List.elem_iff] at hd
        obtain ⟨c, hca, hcf⟩ := hd
        constructor
        · intro h
          exact Except.noConfusion h
        · rintro ⟨hclean, -⟩
          exact absurd hca (hclean h0 c hcf)
      · rw [if_neg hd, ih (some a), ← hshift]
        simp only [List.any_eq_true, List.contains, List.elem_iff,
          not_exists, not_and] at hd
        constructor
        · intro h
          refine ⟨fun _ c hcf => ?_, h⟩
          simpa [List.getD_cons_zero] using fun hca => hd c hca hcf
        · exact fun h => h.2

lemma exceptUnit_isOk_false_iff (e : Except ExecuterError Unit) :
    e.isOk = false ↔ ¬ e = .ok () := by
  cases e with
  | error a => simp [Except.isOk, Except.toBool]
  | ok u => cases u; simp [Except.isOk, Except.toBool]

/-- C4: the command-shape rule has priority 0, and for every execution
request it fails exactly when the token list is empty or some token not
immediately preceded by a `"-c"` token contains one of the forbidden
characters ampersand, pipe, semicolon, backquote, backslash; a token
immediately following a `"-c"` token is exempt. -/
theorem cmd_rule_fails_iff :
    cmdVRule.priority = 0 ∧
    ∀ ctx : Context,
      ((CmdRule.new.validate ctx).isOk = false ↔
        cmdShapeFails CmdRule.new.forbidden_chars ctx.command) := by
  refine ⟨rfl, fun ctx => ?_⟩
  rw [exceptUnit_isOk_false_iff]
  unfold CmdRule.validate cmdShapeFails
  by_cases hemp : ctx.command.isEmpty
  · rw [if_pos hemp]
    simp only [List.isEmpty_iff] at hemp
    constructor
    · intro _
      exact Or.inl hemp
    · intro _
      intro h
      exact Except.noConfusion h
  · rw [if_neg hemp]
    simp only [List.isEmpty_iff] at hemp
    rw [cmdCheckLoop_ok_iff]
    constructor
    · intro h
      push_neg at h
      obtain ⟨i, hlen, hnex, c, hcf, hcd⟩ := h
      refine Or.inr ⟨i, hlen, ?_, c, hcf, hcd⟩
      rw [← exemptAt_none_iff]
      exact hnex
    · rintro (h | ⟨i, hlen, hnex, c, hcf, hcd⟩)
      · exact absurd h hemp
      · intro hall
        rw [← exemptAt_none_iff] at hnex
        exact absurd hcd (hall i hlen hnex c hcf)

/-! ## Theorems for the validator (C5) -/



lemma validateRules_ok_iff (rules : List VRule) (ctx : Context) :
    validateRules rules ctx = .ok () ↔
      ∀ r ∈ rules, r.validate ctx = .ok () := by
  induction rules with
  | nil => simp [validateRules]
  | cons r rest ih =>
    rw [validateRules]
    cases h : r.validate ctx with
    | error e =>
      simp only [List.forall_mem_cons, h]
      constructor
      · intro h'
        exact Except.noConfusion h'
      · rintro ⟨h', -⟩
        exact Except.noConfusion h'
    | ok u =>
      cases u
      simp [List.forall_mem_cons, h, ih]

lemma validateRules_append_error (pre : List VRule) (r : VRule)
    (post : List VRule) (ctx : Context) (e : ExecuterError)
    (hpre : ∀ p ∈ pre, p.validate ctx = .ok ())
    (hr : r.validate ctx = .error e) :
    validateRules (pre ++ r :: post) ctx = .error e := by
  induction pre with
  | nil => simp [validateRules, hr]
  | cons p pre ih =>
    rw [List.cons_append, validateRules, hpre p (List.mem_cons_self p pre)]
    exact ih fun q hq => hpre q (List.mem_cons_of_mem p hq)

/-- C5: a validator constructed from any rule list holds the rules sorted
ascending by priority; validation succeeds exactly when every rule succeeds;
and when the stored rule list decomposes as `pre ++ r :: post` with every
rule of `pre` succeeding and `r` failing, validation returns the error of
`r` — whatever `post` contains, so later rules are never consulted
(fail-fast). -/
theorem validator_sorted_and_fail_fast :
    (∀ rules : List VRule,
      List.Sorted (fun a b => a.priority ≤ b.priority)
        (Validator.new rules).rules) ∧
    (∀ (rules : List VRule) (ctx : Context),
      (Validator.new rules).validate ctx = .ok () ↔
        ∀ r ∈ (Validator.new rules).rules, r.validate ctx = .ok ()) ∧
    (∀ (v : Validator) (ctx : Context) (pre : List VRule) (r : VRule)
        (post : List VRule) (e : ExecuterError),
      v.rules = pre ++ r :: post →
      (∀ p ∈ pre, p.validate ctx = .ok ()) →
      r.validate ctx = .error e →
      v.validate ctx = .error e) := by
  refine ⟨fun rules => ?_, fun rules ctx => ?_, ?_⟩
  · exact List.sorted_insertionSort (fun a b => a.priority ≤ b.priority) rules
  · exact validateRules_ok_iff (Validator.new rules).rules ctx
  · intro v ctx pre r post e hdecomp hpre hr
    unfold Validator.validate
    rw [hdecomp]
    exact validateRules_append_error pre r post ctx e hpre hr



/-- C5 witness: constructing a validator from the unsorted list
`[ruleErrP1, ruleOkP0]` stores `[ruleOkP0, ruleErrP1]`, and validating a
concrete context returns the failing rule's error. -/
theorem validator_sorted_and_fail_fast_witness :
    (Validator.new [ruleErrP1, ruleOkP0]).rules = [ruleOkP0, ruleErrP1] ∧
    (Validator.new [ruleErrP1, ruleOkP0]).validate (Context.new ["echo"] [] none)
      = .error (.validationError "boom") :=
  ⟨rfl,
    validator_sorted_and_fail_fast.2.2 (Validator.new [ruleErrP1, ruleOkP0])
      (Context.new ["echo"] [] none) [ruleOkP0] ruleErrP1 []
      (.validationError "boom") rfl
      (by
        intro p hp
        rw [List.mem_singleton] at hp
        subst hp
        rfl)
      rfl⟩

/-! ## Theorems for the command chain (C3) -/



lemma executeChainGo_append_pass
    (exec : TerraformCommand → Except TerraformError Int)
    (pre rest : List TerraformCommand)
    (hpre : ∀ p ∈ pre, chainPasses exec p) :
    executeChainGo exec 0 (pre ++ rest) = executeChainGo exec 0 rest := by
  induction pre with
  | nil => rfl
  | cons p pre ih =>
    obtain ⟨k, hk, hcase⟩ := hpre p (List.mem_cons_self p pre)
    rw [List.cons_append, executeChainGo, hk]
    rcases hcase with h0 | hws
    · subst h0
      simpa using ih fun q hq => hpre q (List.mem_cons_of_mem p hq)
    · by_cases hk0 : k = 0
      · subst hk0
        simpa using ih fun q hq => hpre q (List.mem_cons_of_mem p hq)
      · simpa [hws, hk0] using ih fun q hq => hpre q (List.mem_cons_of_mem p hq)

/-- C3: `execute_chain` runs the commands in order; once every command of a
prefix has passed, a command returning a non-zero exit code makes the chain
return `Ok` of that code immediately, for every suffix (later commands are
never executed) — unless it is a create-workspace command, in which case the
chain continues with the remaining commands; an execution error makes the
chain return that error immediately, again for every suffix; and a chain
whose commands all exit zero returns `Ok 0`. -/
theorem chain_short_circuit
    (exec : TerraformCommand → Except TerraformError Int)
    (pre : List TerraformCommand) (c : TerraformCommand)
    (post : List TerraformCommand)
    (hpre : ∀ p ∈ pre, chainPasses exec p) :
    (∀ k, exec c = .ok k → k ≠ 0 → c.isWorkspaceNew = false →
      execute_chain exec (pre ++ c :: post) = .ok k) ∧
    (∀ e, exec c = .error e → execute_chain exec (pre ++ c :: post) = .error e) ∧
    (∀ k, exec c = .ok k → k ≠ 0 → c.isWorkspaceNew = true →
      execute_chain exec (pre ++ c :: post) = execute_chain exec post) ∧
    (∀ cmds : List TerraformCommand, (∀ p ∈ cmds, exec p = .ok 0) →
      execute_chain exec cmds = .ok 0) := by
  refine ⟨fun k hk hk0 hws => ?_, fun e he => ?_, fun k hk hk0 hws => ?_,
    fun cmds hall => ?_⟩
  · rw [execute_chain, executeChainGo_append_pass exec pre _ hpre]
    simp [executeChainGo, hk, hws, hk0]
  · rw [execute_chain, executeChainGo_append_pass exec pre _ hpre]
    simp [executeChainGo, he]
  · rw [execute_chain, execute_chain,
      executeChainGo_append_pass exec pre _ hpre]
    simp [executeChainGo, hk, hws, hk0]
  · have hp : ∀ p ∈ cmds, chainPasses exec p :=
      fun p hp => ⟨0, hall p hp, Or.inl rfl⟩
    have h := executeChainGo_append_pass exec cmds [] hp
    rw [List.append_nil] at h
    rw [execute_chain, h]
    rfl



/-- C3 witness: in the chain init, create-workspace, plan, apply under
`execSample`, the failed create-workspace step is skipped over, plan's exit
code 3 short-circuits the chain, and apply (which would error) is never
executed. -/
theorem chain_short_circuit_witness :
    execute_chain execSample
      [tfInitSample, tfWsNewSample, tfPlanSample, tfApplySample] = .ok 3 :=
  (chain_short_circuit execSample [tfInitSample, tfWsNewSample] tfPlanSample
    [tfApplySample]
    (by
      intro p hp
      rcases List.mem_cons.mp hp with h | h
      · subst h
        exact ⟨0, rfl, Or.inl rfl⟩
      · rw [List.mem_singleton] at h
        subst h
        exact ⟨1, rfl, Or.inr rfl⟩)).1 3 rfl (by decide) rfl

/-! ## Theorems for the subprocess runner (C2, C6, C9) -/

lemma executeTrace_completes (s : Subprocess) (ctx : Context)
    (beh : ExecBehavior) (st : ProcessStatus)
    (hval : s.validator.validate ctx = .ok ())
    (hcmd : ctx.command.isEmpty = false)
    (hspawn : beh.spawnOk = true)
    (hwait : beh.wait = .completes st) :
    s.executeTrace ctx beh =
      [.validated, .spawnedChild, .spawnedDrainTasks, .joinedStdoutDrain,
       .joinedStderrDrain, .returned (.ok (st.code.getD 2))] := by
  cases htime : ctx.timeout <;>
    simp [Subprocess.executeTrace, hval, hcmd, hspawn, hwait, htime]

lemma executeTrace_timeout (s : Subprocess) (ctx : Context)
    (beh : ExecBehavior) (t : Nat)
    (hval : s.validator.validate ctx = .ok ())
    (hcmd : ctx.command.isEmpty = false)
    (hspawn : beh.spawnOk = true)
    (htime : ctx.timeout = some t)
    (hwait : beh.wait = .hangsPastTimeout) :
    s.executeTrace ctx beh =
      [.validated, .spawnedChild, .spawnedDrainTasks, .killedChild,
       .returned (.err (.executionError
         ("Command timed out after " ++ toString t ++ " seconds")))] := by
  simp [Subprocess.executeTrace, hval, hcmd, hspawn, hwait, htime]

/-- C2 counterexample: for a request with a timeout whose child is still
running when the timeout expires, `execute` kills the child and returns the
timeout error without joining either stream-drain task, so the claim that
both drain tasks are joined before return under every exit path fails on the
timeout path. -/
theorem execute_timeout_returns_without_join :
    (Subprocess.new (Validator.new [])).executeTrace
        ((Context.new ["sleep", "5"] [] none).with_timeout 1)
        ⟨true, .hangsPastTimeout⟩
      = [.validated, .spawnedChild, .spawnedDrainTasks, .killedChild,
         .returned (.err (.executionError "Command timed out after 1 seconds"))] ∧
    ExecEvent.joinedStdoutDrain ∉
      (Subprocess.new (Validator.new [])).executeTrace
        ((Context.new ["sleep", "5"] [] none).with_timeout 1)
        ⟨true, .hangsPastTimeout⟩ ∧
    ExecEvent.joinedStderrDrain ∉
      (Subprocess.new (Validator.new [])).executeTrace
        ((Context.new ["sleep", "5"] [] none).with_timeout 1)
        ⟨true, .hangsPastTimeout⟩ := by
  refine ⟨by decide, by decide, by decide⟩

/-- C2 amended: when the child process runs to completion — the success and
non-zero-exit paths — both stream-drain tasks are joined, in order, before
`execute` returns its result; on timeout expiry, however, `execute` kills
the child and returns the timeout error without joining either drain
task. -/
theorem execute_joins_drains_iff_completed :
    (∀ (s : Subprocess) (ctx : Context) (beh : ExecBehavior)
        (st : ProcessStatus),
      s.validator.validate ctx = .ok () → ctx.command.isEmpty = false →
      beh.spawnOk = true → beh.wait = .completes st →
      s.executeTrace ctx beh =
        [.validated, .spawnedChild, .spawnedDrainTasks, .joinedStdoutDrain,
         .joinedStderrDrain, .returned (.ok (st.code.getD 2))]) ∧
    (∀ (s : Subprocess) (ctx : Context) (beh : ExecBehavior) (t : Nat),
      s.validator.validate ctx = .ok () → ctx.command.isEmpty = false →
      beh.spawnOk = true → ctx.timeout = some t →
      beh.wait = .hangsPastTimeout →
      s.executeTrace ctx beh =
        [.validated, .spawnedChild, .spawnedDrainTasks, .killedChild,
         .returned (.err (.executionError
           ("Command timed out after " ++ toString t ++ " seconds")))] ∧
      ExecEvent.joinedStdoutDrain ∉ s.executeTrace ctx beh ∧
      ExecEvent.joinedStderrDrain ∉ s.executeTrace ctx beh) := by
  constructor
  · exact fun s ctx beh st hval hcmd hspawn hwait =>
      executeTrace_completes s ctx beh st hval hcmd hspawn hwait
  · intro s ctx beh t hval hcmd hspawn htime hwait
    have h := executeTrace_timeout s ctx beh t hval hcmd hspawn htime hwait
    refine ⟨h, ?_, ?_⟩ <;> rw [h] <;> simp

/-- C2 amended witness: a concrete completed run joins both drains before
returning, and a concrete timed-out run returns without joining. -/
theorem execute_joins_drains_iff_completed_witness :
    (Subprocess.new (Validator.new [])).executeTrace
        (Context.new ["true"] [] none) ⟨true, .completes (.exited 0)⟩
      = [.validated, .spawnedChild, .spawnedDrainTasks, .joinedStdoutDrain,
         .joinedStderrDrain, .returned (.ok 0)] ∧
    ExecEvent.joinedStdoutDrain ∉
      (Subprocess.new (Validator.new [])).executeTrace
        ((Context.new ["x"] [] none).with_timeout 7) ⟨true, .hangsPastTimeout⟩ :=
  ⟨execute_joins_drains_iff_completed.1 (Subprocess.new (Validator.new []))
      (Context.new ["true"] [] none) ⟨true, .completes (.exited 0)⟩ (.exited 0)
      rfl rfl rfl rfl,
    (execute_joins_drains_iff_completed.2 (Subprocess.new (Validator.new []))
      ((Context.new ["x"] [] none).with_timeout 7) ⟨true, .hangsPastTimeout⟩ 7
      rfl rfl rfl rfl rfl).2.1⟩

/-- C6: when the validated child process runs to completion, `execute`
returns `Ok` of `status.code().unwrap_or(2)` — the raw exit code whenever
the OS reports one (a non-zero code is not an error), and the fixed fallback
code 2 when the process terminated without a numeric code. -/
theorem execute_returns_raw_exit_code (s : Subprocess) (ctx : Context)
    (beh : ExecBehavior) (st : ProcessStatus)
    (hval : s.validator.validate ctx = .ok ())
    (hcmd : ctx.command.isEmpty = false)
    (hspawn : beh.spawnOk = true)
    (hwait : beh.wait = .completes st) :
    traceReturn (s.executeTrace ctx beh) = some (.ok (st.code.getD 2)) ∧
    (∀ c : Int, st = .exited c →
      traceReturn (s.executeTrace ctx beh) = some (.ok c)) ∧
    (st = .signaled → traceReturn (s.executeTrace ctx beh) = some (.ok 2)) := by
  have h := executeTrace_completes s ctx beh st hval hcmd hspawn hwait
  rw [h]
  refine ⟨rfl, fun c hc => ?_, fun hc => ?_⟩
  · subst hc
    rfl
  · subst hc
    rfl

/-- C6 witness: a run exiting 7 returns `Ok 7`, and a run killed by a signal
returns the fallback `Ok 2`. -/
theorem execute_returns_raw_exit_code_witness :
    traceReturn ((Subprocess.new (Validator.new [])).executeTrace
        (Context.new ["false"] [] none) ⟨true, .completes (.exited 7)⟩)
      = some (.ok 7) ∧
    traceReturn ((Subprocess.new (Validator.new [])).executeTrace
        (Context.new ["false"] [] none) ⟨true, .completes .signaled⟩)
      = some (.ok 2) :=
  ⟨(execute_returns_raw_exit_code (Subprocess.new (Validator.new []))
      (Context.new ["false"] [] none) ⟨true, .completes (.exited 7)⟩
      (.exited 7) rfl rfl rfl rfl).2.1 7 rfl,
    (execute_returns_raw_exit_code (Subprocess.new (Validator.new []))
      (Context.new ["false"] [] none) ⟨true, .completes .signaled⟩
      .signaled rfl rfl rfl rfl).2.2 rfl⟩

/-- C9: `Subprocess::execute` indexes command token 0 with no emptiness
check of its own: the non-empty guard lives only in the cmd rule.  Whenever
the validator contains the cmd rule, any accepted context has a non-empty
token list, and no run of `execute` reaches the out-of-bounds index; but a
validator without that rule (here: the empty rule list) accepts the empty
token list, and `execute` then reaches the out-of-bounds index — a panic,
not a returned `Err`. -/
theorem execute_token0_guarded_only_by_cmd_rule :
    (∀ (v : Validator) (ctx : Context), cmdVRule ∈ v.rules →
      v.validate ctx = .ok () → ctx.command ≠ []) ∧
    (∀ (v : Validator) (ctx : Context) (beh : ExecBehavior),
      cmdVRule ∈ v.rules → v.validate ctx = .ok () →
      ExecEvent.panicked ∉ (Subprocess.new v).executeTrace ctx beh) ∧
    ((Subprocess.new (Validator.new [])).executeTrace (Context.new [] [] none)
        ⟨true, .completes (.exited 0)⟩
      = [.validated, .panicked]) := by
  have hne : ∀ (v : Validator) (ctx : Context), cmdVRule ∈ v.rules →
      v.validate ctx = .ok () → ctx.command ≠ [] := by
    intro v ctx hmem hok
    have hcmd := (validateRules_ok_iff v.rules ctx).mp hok cmdVRule hmem
    intro hempty
    rw [show cmdVRule.validate = CmdRule.new.validate from rfl,
      CmdRule.validate, if_pos (by simp [hempty])] at hcmd
    exact Except.noConfusion hcmd
  refine ⟨hne, ?_, by decide⟩
  intro v ctx beh hmem hok
  have hemp : ctx.command.isEmpty = false := by
    simpa [List.isEmpty_iff] using hne v ctx hmem hok
  cases htime : ctx.timeout <;> cases hwait : beh.wait <;>
    cases hs : beh.spawnOk <;>
      simp [Subprocess.executeTrace, Subprocess.new, hok, hemp, htime, hwait, hs]

/-- C9 witness: the standard-shaped validator containing the cmd rule
accepts `["echo"]`, and the theorem yields that the token list is
non-empty. -/
theorem execute_token0_guarded_only_by_cmd_rule_witness :
    (["echo"] : List String) ≠ [] :=
  execute_token0_guarded_only_by_cmd_rule.1 (Validator.new [cmdVRule])
    (Context.new ["echo"] [] none)
    (by rw [show (Validator.new [cmdVRule]).rules = [cmdVRule] from rfl]
        exact List.mem_singleton.mpr rfl)
    rfl

/-! ## Theorems for argument rendering (C7) -/

lemma lookupFirst_isSome_iff (l : List (String × String)) (k : String) :
    (lookupFirst l k).isSome = true ↔ k ∈ l.map Prod.fst := by
  induction l with
  | nil => simp [lookupFirst]
  | cons p rest ih =>
    by_cases h : p.1 = k
    · simp [lookupFirst, h]
    · simp only [lookupFirst, beq_iff_eq, h, if_false, List.map_cons,
        List.mem_cons, ih]
      constructor
      · exact Or.inr
      · rintro (hk | hk)
        · exact absurd hk.symm h
        · exact hk

lemma lookupFirst_eq_some_iff (l : List (String × String))
    (hn : (l.map Prod.fst).Nodup) (k v : String) :
    lookupFirst l k = some v ↔ (k, v) ∈ l := by
  induction l with
  | nil => simp [lookupFirst]
  | cons p rest ih =>
    rw [List.map_cons, List.nodup_cons] at hn
    by_cases h : p.1 = k
    · subst h
      rw [lookupFirst, if_pos (by simp)]
      constructor
      · intro hv
        rw [← Option.some_inj.mp hv, ← Prod.mk.eta (p := p)]
        exact List.mem_cons_self _ _
      · intro hm
        rcases List.mem_cons.mp hm with he | hm
        · rw [← he]
        · exact absurd (List.mem_map_of_mem Prod.fst hm) hn.1
    · rw [lookupFirst, if_neg (by simpa using h), ih hn.2]
      constructor
      · exact List.mem_cons_of_mem p
      · intro hm
        rcases List.mem_cons.mp hm with he | hm
        · exact absurd (congrArg Prod.fst he).symm h
        · exact hm

lemma lookupFirst_perm (l lp : List (String × String)) (h : l.Perm lp)
    (hn : (l.map Prod.fst).Nodup) (k : String) :
    lookupFirst l k = lookupFirst lp k := by
  have hnp : (lp.map Prod.fst).Nodup := ((h.map Prod.fst).nodup_iff).mp hn
  cases hl : lookupFirst l k with
  | some v =>
    have hm : (k, v) ∈ l := (lookupFirst_eq_some_iff l hn k v).mp hl
    exact ((lookupFirst_eq_some_iff lp hnp k v).mpr (h.mem_iff.mp hm)).symm
  | none =>
    cases hlp : lookupFirst lp k with
    | none => rfl
    | some w =>
      have h1 : k ∉ l.map Prod.fst := by
        rw [← lookupFirst_isSome_iff l k, hl]
        simp
      have h2 : k ∈ l.map Prod.fst := by
        exact ((h.map Prod.fst).mem_iff).mpr
          ((lookupFirst_isSome_iff lp k).mp (by rw [hlp]; rfl))
      exact absurd h2 h1

lemma filterMap_lookup_eq_map (vars : List (String × String))
    (f : String → String → String) (ks : List String)
    (h : ∀ k ∈ ks, k ∈ vars.map Prod.fst) :
    ks.filterMap (fun key => (lookupFirst vars key).map (f key)) =
      ks.map (fun k => f k ((lookupFirst vars k).getD "")) := by
  induction ks with
  | nil => rfl
  | cons k ks ih =>
    have hk := h k (List.mem_cons_self k ks)
    obtain ⟨v, hv⟩ := Option.isSome_iff_exists.mp
      ((lookupFirst_isSome_iff vars k).mpr hk)
    rw [List.filterMap_cons, List.map_cons, hv]
    simp only [Option.map_some', Option.getD_some]
    rw [ih fun q hq => h q (List.mem_cons_of_mem k hq)]

lemma strListLe_cons_iff (a b : Char) (as bs : List Char) :
    strListLe (a :: as) (b :: bs) = true ↔
      (a.toNat < b.toNat ∨ (a.toNat = b.toNat ∧ strListLe as bs = true)) := by
  rw [strListLe]
  by_cases h1 : a.toNat < b.toNat
  · simp [h1]
  · by_cases h2 : b.toNat < a.toNat
    · rw [if_neg h1, if_pos h2]
      constructor
      · intro h
        exact Bool.noConfusion h
      · rintro (h | ⟨h, -⟩)
        · exact absurd h h1
        · exact absurd h (by omega)

    · have he : a.toNat = b.toNat := by omega
      simp [h1, h2, he]

lemma strListLe_total : ∀ as bs : List Char,
    strListLe as bs = true ∨ strListLe bs as = true := by
  intro as
  induction as with
  | nil => intro bs; exact Or.inl rfl
  | cons a as ih =>
    intro bs
    cases bs with
    | nil => exact Or.inr rfl
    | cons b bs =>
      rcases Nat.lt_trichotomy a.toNat b.toNat with h | h | h
      · exact Or.inl ((strListLe_cons_iff a b as bs).mpr (Or.inl h))
      · rcases ih bs with hr | hr
        · exact Or.inl ((strListLe_cons_iff a b as bs).mpr (Or.inr ⟨h, hr⟩))
        · exact Or.inr ((strListLe_cons_iff b a bs as).mpr (Or.inr ⟨h.symm, hr⟩))
      · exact Or.inr ((strListLe_cons_iff b a bs as).mpr (Or.inl h))

lemma strListLe_trans : ∀ as bs cs : List Char,
    strListLe as bs = true → strListLe bs cs = true →
      strListLe as cs = true := by
  intro as
  induction as with
  | nil => intro bs cs _ _; rfl
  | cons a as ih =>
    intro bs cs h1 h2
    cases bs with
    | nil => exact absurd h1 (by simp [strListLe])
    | cons b bs =>
      cases cs with
      | nil => exact absurd h2 (by simp [strListLe])
      | cons c cs =>
        rw [strListLe_cons_iff] at h1 h2 ⊢
        rcases h1 with h1 | ⟨h1e, h1r⟩ <;> rcases h2 with h2 | ⟨h2e, h2r⟩
        · exact Or.inl (by omega)
        · exact Or.inl (by omega)
        · exact Or.inl (by omega)
        · exact Or.inr ⟨by omega, ih bs cs h1r h2r⟩

lemma strListLe_antisymm : ∀ as bs : List Char,
    strListLe as bs = true → strListLe bs as = true → as = bs := by
  intro as
  induction as with
  | nil =>
    intro bs h1 h2
    cases bs with
    | nil => rfl
    | cons b bs => exact absurd h2 (by simp [strListLe])
  | cons a as ih =>
    intro bs h1 h2
    cases bs with
    | nil => exact absurd h1 (by simp [strListLe])
    | cons b bs =>
      rw [strListLe_cons_iff] at h1 h2
      have he : a.toNat = b.toNat := by
        rcases h1 with h1 | ⟨h1e, -⟩ <;> rcases h2 with h2 | ⟨h2e, -⟩ <;> omega
      have hab : a = b := Char.ext (UInt32.toNat.inj he)
      have hr1 : strListLe as bs = true := by
        rcases h1 with h1 | ⟨-, h⟩
        · exact absurd h1 (by omega)
        · exact h
      have hr2 : strListLe bs as = true := by
        rcases h2 with h2 | ⟨-, h⟩
        · exact absurd h2 (by omega)
        · exact h
      rw [hab, ih bs hr1 hr2]

instance : IsTotal String (fun a b => strLe a b = true) :=
  ⟨fun a b => strListLe_total a.data b.data⟩

instance : IsTrans String (fun a b => strLe a b = true) :=
  ⟨fun a b c => strListLe_trans a.data b.data c.data⟩

instance : IsAntisymm String (fun a b => strLe a b = true) :=
  ⟨fun a b h1 h2 => String.ext (strListLe_antisymm a.data b.data h1 h2)⟩

lemma sortStrings_sorted (keys : List String) :
    List.Sorted (fun a b : String => strLe a b = true) (sortStrings keys) :=
  List.sorted_insertionSort (fun a b : String => strLe a b = true) keys

lemma sortStrings_perm (keys : List String) :
    (sortStrings keys).Perm keys :=
  List.perm_insertionSort (fun a b : String => strLe a b = true) keys

lemma sortStrings_eq_of_perm (a b : List String) (h : a.Perm b) :
    sortStrings a = sortStrings b :=
  List.eq_of_perm_of_sorted
    (((sortStrings_perm a).trans h).trans (sortStrings_perm b).symm)
    (sortStrings_sorted a) (sortStrings_sorted b)

lemma renderSortedEntries_eq_map (vars : List (String × String))
    (f : String → String → String) :
    renderSortedEntries vars f =
      (sortedKeys vars).map (fun k => f k ((lookupFirst vars k).getD "")) := by
  unfold renderSortedEntries
  exact filterMap_lookup_eq_map vars f (sortedKeys vars)
    (fun k hk => (sortStrings_perm (vars.map Prod.fst)).subset hk)

lemma renderSortedEntries_perm (vars varsp : List (String × String))
    (hperm : vars.Perm varsp) (hnd : (vars.map Prod.fst).Nodup)
    (f : String → String → String) :
    renderSortedEntries vars f = renderSortedEntries varsp f := by
  unfold renderSortedEntries sortedKeys
  rw [sortStrings_eq_of_perm _ _ (hperm.map Prod.fst)]
  congr 1
  funext key
  rw [lookupFirst_perm vars varsp hperm hnd key]

/-- C7: for every variables map, the argument list rendered for the plan
command lists the `-var=<k>=<v>` entries with keys in ascending sorted
order; the rendering is invariant under permutation of the map's entries
(iteration order); and concretely the map with entries b = 2, a = 1, in
either entry order, renders `-var=a=1` before `-var=b=2`. -/
theorem plan_args_sorted_keys :
    (∀ (dir : String) (vars : List (String × String)) (out : Option String),
      (vars.map Prod.fst).Nodup →
      ∃ ks : List String, ks.Perm (vars.map Prod.fst) ∧
        List.Sorted (fun a b : String => strLe a b = true) ks ∧
        (TerraformCommand.plan dir vars out).to_args =
          "plan" ::
            (ks.map fun k => "-var=" ++ k ++ "=" ++ (lookupFirst vars k).getD "")
            ++ (match out with | none => [] | some f => ["-out", f])) ∧
    (∀ (dir : String) (vars varsp : List (String × String)) (out : Option String),
      (vars.map Prod.fst).Nodup → vars.Perm varsp →
      (TerraformCommand.plan dir vars out).to_args =
        (TerraformCommand.plan dir varsp out).to_args) ∧
    ((TerraformCommand.plan "d" [("b", "2"), ("a", "1")] none).to_args =
        ["plan", "-var=a=1", "-var=b=2"] ∧
      (TerraformCommand.plan "d" [("a", "1"), ("b", "2")] none).to_args =
        ["plan", "-var=a=1", "-var=b=2"]) := by
  refine ⟨fun dir vars out _ => ?_, fun dir vars varsp out hnd hperm => ?_,
    by decide, by decide⟩
  · refine ⟨sortedKeys vars, ?_, sortStrings_sorted _, ?_⟩
    · exact sortStrings_perm (vars.map Prod.fst)
    · cases out <;>
        simp [TerraformCommand.to_args, renderSortedEntries_eq_map]
  · cases out <;>
      simp [TerraformCommand.to_args,
        renderSortedEntries_perm vars varsp hperm hnd]

/-- C7 witness: rendering the same two-entry map handed over in either entry
order produces identical argument lists. -/
theorem plan_args_sorted_keys_witness :
    (TerraformCommand.plan "d" [("b", "2"), ("a", "1")] none).to_args =
      (TerraformCommand.plan "d" [("a", "1"), ("b", "2")] none).to_args :=
  plan_args_sorted_keys.2.1 "d" [("b", "2"), ("a", "1")]
    [("a", "1"), ("b", "2")] none (by decide) (List.Perm.swap _ _ _)

end CiActions
